import Mathlib

/-!
Shallow embedding of the discount-resolution subsystem of the repository
(`src/patterns/strategy.py`): the `DiscountStrategy` hierarchy (percentage,
fixed-amount, buy-one-get-one, time-based, loyalty-tier, combo) and the
`DiscountManager` context with `calculate_best_discount` and
`calculate_multiple_discounts`.

Modelling conventions:
* Python floats carrying money are modelled as exact rationals (`ℚ`);
  Python's `round(x, 2)` is modelled as ideal round-half-to-even at two
  decimal places (`pyRound2`).
* Python dicts for line items / customer data are modelled with `Option`
  fields resp. association lists: a missing key yields the `.get` default,
  exactly as the source's `dict.get(key, default)` calls do.
* `datetime.now()` is modelled by an explicit `Clock` argument carrying the
  full timestamp (`now`, for the validity window of a strategy), the
  time-of-day (`timeOfDay`, an abstract totally ordered instant — think
  minutes since midnight) and the weekday (`weekday : Fin 7`, Python
  convention `0 = Monday`, …, `5 = Saturday`, `6 = Sunday`).
* Result dicts are modelled as structures, since the source constructs them
  with a fixed key set.  Human-readable `reason` strings that interpolate
  numbers are reproduced structurally (via `toString`) rather than
  character-for-character; the exact constant strings (e.g.
  "No applicable discounts") are kept verbatim.
* Mutable state (per-strategy usage counters, manager daily counters) is
  modelled by explicit state passing: `apply_discount` and the manager
  operations return the updated objects alongside their result.
-/

/-- Ideal round-half-to-even of a rational to an integer
(the rounding mode of Python 3's `round`). -/
def roundHalfEven (q : ℚ) : ℤ :=
  let n := ⌊q⌋
  let f := q - n
  if f < 1/2 then n
  else if 1/2 < f then n + 1
  else if n % 2 = 0 then n else n + 1

/-- Python's `round(x, 2)` on an exact rational. -/
def pyRound2 (q : ℚ) : ℚ := (roundHalfEven (q * 100) : ℚ) / 100

/-- A line-item dict `{name, quantity, unit_price}`; `none` models a missing
key, read back through the source's `item.get(key, default)` defaults. -/
structure LineItem where
  name : Option String
  quantity : Option ℤ
  unit_price : Option ℚ
deriving DecidableEq

def LineItem.pyName (it : LineItem) : String := it.name.getD ""

def LineItem.pyQty (it : LineItem) : ℤ := it.quantity.getD 1

def LineItem.pyPrice (it : LineItem) : ℚ := it.unit_price.getD 0

/-- `customer_data`: `none` is Python `None`, otherwise an open string-keyed
dict modelled as an association list. -/
abbrev Customer := Option (List (String × String))

/-- Python truthiness of `not customer_data`: true for `None` and `{}`. -/
def custFalsy : Customer → Bool
  | none => true
  | some l => l.isEmpty

/-- Association-list lookup (first binding wins), modelling `dict[k]` /
`dict.get(k)` on dicts whose keys are kept unique by `upsert`. -/
def alookup {A : Type} : List (String × A) → String → Option A
  | [], _ => none
  | (k, v) :: rest, key => if k = key then some v else alookup rest key

/-- `dict.get(k, d)`. -/
def alookupD {A : Type} (l : List (String × A)) (key : String) (d : A) : A :=
  (alookup l key).getD d

/-- `dict[k] = v`: replace the first binding of `k` in place, else append —
this reproduces Python-dict insertion-order semantics. -/
def upsert {A : Type} : List (String × A) → String → A → List (String × A)
  | [], key, v => [(key, v)]
  | (k, w) :: rest, key, v =>
      if k = key then (key, v) :: rest else (k, w) :: upsert rest key v

/-- Python's substring test `needle in hay`. -/
def strContains (hay needle : String) : Bool :=
  decide (needle.data <:+: hay.data)

/-- The explicit `datetime.now()` state threaded through a resolution. -/
structure Clock where
  now : ℕ
  timeOfDay : ℕ
  weekday : Fin 7
deriving DecidableEq

/-- One entry of the BOGO `bogo_details` list. -/
structure BogoDetail where
  item : String
  bought : ℤ
  free_items : ℤ
  discount : ℚ
deriving DecidableEq

/-- One entry of the stacked-mode `applied_strategies` list. -/
structure AppliedStrategy where
  strategy : String
  discount : ℚ
  type : String
deriving DecidableEq

/-- The per-strategy `details` sub-dict of a result, one shape per source
constructor site (formatted time strings are kept as their underlying data). -/
inductive Details where
  | empty
  | percentage (percentage : ℚ) (original_total : ℚ) (max_discount : Option ℚ)
  | fixedAmount (fixed_amount actual_discount original_total : ℚ)
  | bogo (target_items : List String) (discount_percentage : ℚ)
      (bogo_details : List BogoDetail)
  | timeBased (percentage : ℚ) (startTime endTime : ℕ) (weekdays_only : Bool)
      (current_time : ℕ)
  | loyalty (customer_tier : String) (percentage : ℚ)
      (all_tiers : List (String × ℚ))
  | comboFound (combo_items found_items : List String)
      (individual_total combo_price savings : ℚ)
  | comboMissing (required_items found_items : List String)
  | stacked (applied_strategies : List AppliedStrategy)
      (original_total final_total : ℚ)
deriving DecidableEq

/-- The result dict every `calculate_discount` implementation returns. -/
structure DiscountResult where
  discount_amount : ℚ
  discount_type : String
  applicable : Bool
  reason : String
  details : Details
deriving DecidableEq

/-- A result dict after the manager set `result["strategy_name"]`. -/
structure NamedResult extends DiscountResult where
  strategy_name : String
deriving DecidableEq

/-- The dict returned by the manager: `all_available` is present (`some`) for
`calculate_best_discount` and absent (`none`) in stacked mode. -/
structure BestResult extends NamedResult where
  all_available : Option (List NamedResult)
deriving DecidableEq

/-- The six concrete `DiscountStrategy` subclasses, by their constructor
data. -/
inductive Strategy where
  | percentage (name : String) (pct : ℚ) (minOrder : ℚ) (maxDiscount : Option ℚ)
  | fixedAmount (name : String) (amount : ℚ) (minOrder : ℚ)
  | bogo (name : String) (targets : List String) (pct : ℚ)
  | timeBased (name : String) (pct : ℚ) (startTime endTime : ℕ)
      (weekdaysOnly : Bool)
  | loyaltyTier (name : String) (tiers : List (String × ℚ))
  | combo (name : String) (comboItems : List String) (comboPrice : ℚ)
deriving DecidableEq

def Strategy.name : Strategy → String
  | .percentage n _ _ _ => n
  | .fixedAmount n _ _ => n
  | .bogo n _ _ => n
  | .timeBased n _ _ _ _ => n
  | .loyaltyTier n _ => n
  | .combo n _ _ => n

/-- `PercentageDiscountStrategy.calculate_discount`.  Note the source guards
the cap with Python truthiness `if self.max_discount_amount:`, so a cap of
`0.0` (or `None`) is not applied. -/
def percentageCalc (pct : ℚ) (maxDiscount : Option ℚ) (total : ℚ) :
    DiscountResult :=
  let d0 := total * (pct / 100)
  let d1 := match maxDiscount with
    | some m => if m = 0 then d0 else min d0 m
    | none => d0
  { discount_amount := pyRound2 d1
    discount_type := "percentage"
    applicable := true
    reason := toString pct ++ "% discount applied"
    details := .percentage pct total maxDiscount }

/-- `FixedAmountDiscountStrategy.calculate_discount` (no rounding in the
source). -/
def fixedAmountCalc (amount : ℚ) (total : ℚ) : DiscountResult :=
  let actual := min amount total
  { discount_amount := actual
    discount_type := "fixed_amount"
    applicable := true
    reason := "$" ++ toString amount ++ " discount applied"
    details := .fixedAmount amount actual total }

/-- One iteration of the `BuyOneGetOneStrategy` grouping loop: a target item
accumulates its quantity into `item_counts` and (over)writes its price into
`item_prices`. -/
def bogoStep (targets : List String)
    (acc : List (String × ℤ) × List (String × ℚ)) (item : LineItem) :
    List (String × ℤ) × List (String × ℚ) :=
  if item.pyName ∈ targets then
    (upsert acc.1 item.pyName (alookupD acc.1 item.pyName 0 + item.pyQty),
     upsert acc.2 item.pyName item.pyPrice)
  else acc

/-- The single pass of `BuyOneGetOneStrategy` building `item_counts` and
`item_prices` (two dicts filled by one loop over the order items). -/
def bogoBuild (targets : List String) (items : List LineItem) :
    List (String × ℤ) × List (String × ℚ) :=
  items.foldl (bogoStep targets) ([], [])

/-- One iteration of the discount loop over `item_counts`: a name with at
least one matching pair contributes `(count // 2) * price * pct/100`. -/
def bogoCalcStep (prices : List (String × ℚ)) (pct : ℚ)
    (acc : ℚ × List BogoDetail) (e : String × ℤ) : ℚ × List BogoDetail :=
  if 2 ≤ e.2 then
    let free : ℤ := e.2 / 2
    let price := alookupD prices e.1 0
    let d := (free : ℚ) * price * (pct / 100)
    (acc.1 + d, acc.2 ++ [⟨e.1, e.2, free, d⟩])
  else acc

/-- `BuyOneGetOneStrategy.calculate_discount`.  The price subscript
`item_prices[item_name]` is modelled with default `0`; that the key is always
present (so the subscript never raises) is proved separately via the
`Except`-instrumented variant. -/
def bogoCalc (targets : List String) (pct : ℚ) (items : List LineItem) :
    DiscountResult :=
  let cp := bogoBuild targets items
  let res := cp.1.foldl (bogoCalcStep cp.2 pct) (0, [])
  { discount_amount := pyRound2 res.1
    discount_type := "bogo"
    applicable := decide (0 < res.1)
    reason := "BOGO " ++ toString pct ++ "% applied"
    details := .bogo targets pct res.2 }

/-- `BuyOneGetOneStrategy.is_applicable`: rebuilds the counts dict and asks
for some aggregated quantity `≥ 2`. -/
def bogoIsApplicable (targets : List String) (items : List LineItem) : Bool :=
  (bogoBuild targets items).1.any (fun e => 2 ≤ e.2)

/-- `TimeBasedDiscountStrategy.calculate_discount`. -/
def timeBasedCalc (pct : ℚ) (startTime endTime : ℕ) (weekdaysOnly : Bool)
    (clock : Clock) (total : ℚ) : DiscountResult :=
  { discount_amount := pyRound2 (total * (pct / 100))
    discount_type := "time_based"
    applicable := true
    reason := "Happy Hour " ++ toString pct ++ "% discount"
    details := .timeBased pct startTime endTime weekdaysOnly clock.timeOfDay }

/-- `TimeBasedDiscountStrategy.is_applicable`. -/
def timeBasedIsApplicable (startTime endTime : ℕ) (weekdaysOnly : Bool)
    (clock : Clock) : Bool :=
  if weekdaysOnly ∧ 5 ≤ clock.weekday.val then false
  else if startTime ≤ endTime then
    decide (startTime ≤ clock.timeOfDay ∧ clock.timeOfDay ≤ endTime)
  else
    decide (startTime ≤ clock.timeOfDay ∨ clock.timeOfDay ≤ endTime)

/-- `LoyaltyTierDiscountStrategy._no_discount_result`. -/
def noDiscountResult (reason : String) : DiscountResult :=
  { discount_amount := 0
    discount_type := "none"
    applicable := false
    reason := reason
    details := .empty }

/-- `LoyaltyTierDiscountStrategy.calculate_discount`. -/
def loyaltyCalc (tiers : List (String × ℚ)) (total : ℚ) (cust : Customer) :
    DiscountResult :=
  if custFalsy cust then noDiscountResult "No customer data provided"
  else
    let tier := (alookupD (cust.getD []) "loyalty_tier" "").toLower
    let pct := alookupD tiers tier 0
    if pct = 0 then noDiscountResult ("No discount for tier: " ++ tier)
    else
      { discount_amount := pyRound2 (total * (pct / 100))
        discount_type := "loyalty_tier"
        applicable := true
        reason := tier.capitalize ++ " tier " ++ toString pct ++ "% discount"
        details := .loyalty tier pct tiers }

/-- `LoyaltyTierDiscountStrategy.is_applicable`. -/
def loyaltyIsApplicable (tiers : List (String × ℚ)) (cust : Customer) : Bool :=
  if custFalsy cust then false
  else
    (alookup tiers ((alookupD (cust.getD []) "loyalty_tier" "").toLower)).isSome

/-- The inner search of `ComboDiscountStrategy.calculate_discount`: for each
required item, the first order item whose (lowercased) name contains the
required name contributes its price and name. -/
def comboScan (comboItems : List String) (items : List LineItem) :
    ℚ × List String :=
  comboItems.foldl
    (fun (acc : ℚ × List String) r =>
      match items.find? (fun it => strContains it.pyName.toLower r.toLower) with
      | some it => (acc.1 + it.pyPrice, acc.2 ++ [it.pyName])
      | none => acc)
    (0, [])

/-- `ComboDiscountStrategy.calculate_discount`. -/
def comboCalc (comboItems : List String) (comboPrice : ℚ)
    (items : List LineItem) : DiscountResult :=
  let s := comboScan comboItems items
  if s.2.length = comboItems.length then
    let savings := s.1 - comboPrice
    { discount_amount := max 0 (pyRound2 savings)
      discount_type := "combo"
      applicable := true
      reason := "Combo meal discount applied"
      details := .comboFound comboItems s.2 s.1 comboPrice savings }
  else
    { discount_amount := 0
      discount_type := "none"
      applicable := false
      reason := "Missing combo items"
      details := .comboMissing comboItems s.2 }

/-- `ComboDiscountStrategy.is_applicable`: every required item has some
matching order item. -/
def comboIsApplicable (comboItems : List String) (items : List LineItem) :
    Bool :=
  (comboItems.countP
      (fun r => items.any (fun it => strContains it.pyName.toLower r.toLower)))
    = comboItems.length

/-- Polymorphic dispatch of `calculate_discount`. -/
def Strategy.calculate_discount (s : Strategy) (clock : Clock) (total : ℚ)
    (items : List LineItem) (cust : Customer) : DiscountResult :=
  match s with
  | .percentage _ pct _ maxD => percentageCalc pct maxD total
  | .fixedAmount _ amount _ => fixedAmountCalc amount total
  | .bogo _ targets pct => bogoCalc targets pct items
  | .timeBased _ pct st en wk => timeBasedCalc pct st en wk clock total
  | .loyaltyTier _ tiers => loyaltyCalc tiers total cust
  | .combo _ ci cp => comboCalc ci cp items

/-- Polymorphic dispatch of `is_applicable`. -/
def Strategy.is_applicable (s : Strategy) (clock : Clock) (total : ℚ)
    (items : List LineItem) (cust : Customer) : Bool :=
  match s with
  | .percentage _ _ minOrder _ => decide (minOrder ≤ total)
  | .fixedAmount _ _ minOrder => decide (minOrder ≤ total)
  | .bogo _ targets _ => bogoIsApplicable targets items
  | .timeBased _ _ st en wk => timeBasedIsApplicable st en wk clock
  | .loyaltyTier _ tiers => loyaltyIsApplicable tiers cust
  | .combo _ ci _ => comboIsApplicable ci items

/-- A `DiscountStrategy` object: the concrete calculator together with the
base-class state (validity window and mutable usage counters). -/
structure StratObj where
  strat : Strategy
  valid_from : ℕ
  valid_until : Option ℕ
  usage_count : ℕ
  total_savings : ℚ
deriving DecidableEq

/-- `DiscountStrategy.is_valid_time` (a `valid_from` datetime is always
truthy in Python, a set `valid_until` likewise). -/
def is_valid_time (now : ℕ) (o : StratObj) : Bool :=
  if now < o.valid_from then false
  else match o.valid_until with
    | some u => !(decide (u < now))
    | none => true

def expiredResult : DiscountResult :=
  { discount_amount := 0
    discount_type := "none"
    applicable := false
    reason := "Discount period expired"
    details := .empty }

def notApplicableResult : DiscountResult :=
  { discount_amount := 0
    discount_type := "none"
    applicable := false
    reason := "Discount not applicable to this order"
    details := .empty }

/-- `DiscountStrategy.apply_discount`: validity gate, applicability gate,
concrete calculation, and — iff the result is applicable — the increment of
the strategy's own usage counters. -/
def apply_discount (clock : Clock) (total : ℚ) (items : List LineItem)
    (cust : Customer) (o : StratObj) : DiscountResult × StratObj :=
  if !is_valid_time clock.now o then (expiredResult, o)
  else if !o.strat.is_applicable clock total items cust then
    (notApplicableResult, o)
  else
    let r := o.strat.calculate_discount clock total items cust
    if r.applicable then
      (r, { o with
            usage_count := o.usage_count + 1
            total_savings := o.total_savings + r.discount_amount })
    else (r, o)

/-- The `DiscountManager` context: registered strategies (in registration
order) plus the daily counters. -/
structure Manager where
  strategies : List StratObj
  applied_discounts_today : ℕ
  total_savings_today : ℚ
deriving DecidableEq

/-- The initial `best_discount` dict of `calculate_best_discount`. -/
def initBest : NamedResult :=
  { discount_amount := 0
    discount_type := "none"
    applicable := false
    reason := "No applicable discounts"
    strategy_name := "none"
    details := .empty }

/-- The strategy loop of `calculate_best_discount`: threads the mutated
strategy objects, the running best (replaced only on a strictly larger
discount) and the `available_discounts` accumulator. -/
def bestLoop (clock : Clock) (total : ℚ) (items : List LineItem)
    (cust : Customer) :
    List StratObj → NamedResult → List NamedResult →
      List StratObj × NamedResult × List NamedResult
  | [], best, avail => ([], best, avail)
  | o :: rest, best, avail =>
      let ro := apply_discount clock total items cust o
      if ro.1.applicable then
        let nr : NamedResult :=
          { toDiscountResult := ro.1, strategy_name := o.strat.name }
        let best' := if best.discount_amount < nr.discount_amount then nr
                     else best
        let step := bestLoop clock total items cust rest best' (avail ++ [nr])
        (ro.2 :: step.1, step.2)
      else
        let step := bestLoop clock total items cust rest best avail
        (ro.2 :: step.1, step.2)

/-- `DiscountManager.calculate_best_discount`. -/
def calculate_best_discount (mgr : Manager) (clock : Clock) (total : ℚ)
    (items : List LineItem) (cust : Customer) : BestResult × Manager :=
  let step := bestLoop clock total items cust mgr.strategies initBest []
  let best := step.2.1
  let mgr' :=
    if best.applicable then
      { mgr with
        strategies := step.1
        applied_discounts_today := mgr.applied_discounts_today + 1
        total_savings_today := mgr.total_savings_today + best.discount_amount }
    else { mgr with strategies := step.1 }
  ({ toNamedResult := best, all_available := some step.2.2 }, mgr')

/-- The strategy loop of `calculate_multiple_discounts` in stacking mode:
each strategy is applied to the running (already reduced) total. -/
def stackLoop (clock : Clock) (items : List LineItem) (cust : Customer) :
    List StratObj → ℚ → ℚ → List AppliedStrategy →
      List StratObj × ℚ × ℚ × List AppliedStrategy
  | [], td, ct, app => ([], td, ct, app)
  | o :: rest, td, ct, app =>
      let ro := apply_discount clock ct items cust o
      if ro.1.applicable then
        let d := ro.1.discount_amount
        let step := stackLoop clock items cust rest (td + d) (ct - d)
          (app ++ [⟨o.strat.name, d, ro.1.discount_type⟩])
        (ro.2 :: step.1, step.2)
      else
        let step := stackLoop clock items cust rest td ct app
        (ro.2 :: step.1, step.2)

/-- `DiscountManager.calculate_multiple_discounts`: without stacking it
returns `calculate_best_discount` unchanged; with stacking it sums the
sequentially applied discounts (no daily-counter update in this mode). -/
def calculate_multiple_discounts (mgr : Manager) (clock : Clock) (total : ℚ)
    (items : List LineItem) (cust : Customer) (allow_stacking : Bool) :
    BestResult × Manager :=
  if allow_stacking = false then
    calculate_best_discount mgr clock total items cust
  else
    let step := stackLoop clock items cust mgr.strategies 0 total []
    ({ discount_amount := pyRound2 step.2.1
       discount_type := "stacked"
       applicable := !step.2.2.2.isEmpty
       reason := "Stacked " ++ toString step.2.2.2.length ++ " discounts"
       strategy_name := "multiple"
       details := .stacked step.2.2.2 total step.2.2.1
       all_available := none },
     { mgr with strategies := step.1 })

/-! ## Specification-side vocabulary for the resolver -/

/-- The updated strategy object after one `apply_discount` call. -/
def applyUpd (clock : Clock) (total : ℚ) (items : List LineItem)
    (cust : Customer) (o : StratObj) : StratObj :=
  (apply_discount clock total items cust o).2

/-- The (name-tagged) outcomes of exactly those registered strategies whose
`apply_discount` outcome is applicable, in registration order — the
`available_discounts` list of the source. -/
def applicableResults (clock : Clock) (total : ℚ) (items : List LineItem)
    (cust : Customer) (objs : List StratObj) : List NamedResult :=
  objs.filterMap (fun o =>
    if (apply_discount clock total items cust o).1.applicable then
      some ⟨(apply_discount clock total items cust o).1, o.strat.name⟩
    else none)

/-- The running-best selection: replace only on a strictly larger discount. -/
def chooseFold (b : NamedResult) (rs : List NamedResult) : NamedResult :=
  rs.foldl (fun b r => if b.discount_amount < r.discount_amount then r else b) b

/-- Maximum discount amount of a list of outcomes (at least `0`). -/
def maxD (rs : List NamedResult) : ℚ :=
  rs.foldr (fun r m => max r.discount_amount m) 0

lemma bestLoop_eq (clock : Clock) (total : ℚ) (items : List LineItem)
    (cust : Customer) (l : List StratObj) :
    ∀ (best : NamedResult) (avail : List NamedResult),
      bestLoop clock total items cust l best avail =
        (l.map (applyUpd clock total items cust),
         chooseFold best (applicableResults clock total items cust l),
         avail ++ applicableResults clock total items cust l) := by
  induction l with
  | nil => intro best avail; simp [bestLoop, applicableResults, chooseFold]
  | cons o rest ih =>
      intro best avail
      by_cases h : (apply_discount clock total items cust o).1.applicable
      · simp only [bestLoop, h, if_true, ih, applicableResults,
          List.filterMap_cons, applyUpd, List.map_cons, chooseFold,
          List.foldl_cons, List.append_assoc, List.singleton_append]
      · simp only [bestLoop, h, if_false, ih, applicableResults,
          List.filterMap_cons, applyUpd, List.map_cons, chooseFold,
          List.foldl_cons, List.append_assoc, List.singleton_append]
        simp [h]

lemma calculate_best_fst (mgr : Manager) (clock : Clock) (total : ℚ)
    (items : List LineItem) (cust : Customer) :
    (calculate_best_discount mgr clock total items cust).1 =
      ⟨chooseFold initBest
          (applicableResults clock total items cust mgr.strategies),
        some (applicableResults clock total items cust mgr.strategies)⟩ := by
  simp [calculate_best_discount, bestLoop_eq]

lemma calculate_best_strategies (mgr : Manager) (clock : Clock) (total : ℚ)
    (items : List LineItem) (cust : Customer) :
    (calculate_best_discount mgr clock total items cust).2.strategies =
      mgr.strategies.map (applyUpd clock total items cust) := by
  by_cases h : (chooseFold initBest
      (applicableResults clock total items cust mgr.strategies)).applicable
  · simp [calculate_best_discount, bestLoop_eq, h]
  · simp [calculate_best_discount, bestLoop_eq, h]

lemma chooseFold_of_forall_le (rs : List NamedResult) :
    ∀ (b : NamedResult), (∀ r ∈ rs, r.discount_amount ≤ b.discount_amount) →
      chooseFold b rs = b := by
  induction rs with
  | nil => intro b _; rfl
  | cons r rest ih =>
      intro b h
      have hr : ¬ b.discount_amount < r.discount_amount :=
        not_lt.mpr (h r (List.mem_cons_self r rest))
      simp only [chooseFold, List.foldl_cons, if_neg hr]
      exact ih b (fun r' hr' => h r' (List.mem_cons_of_mem r hr'))

lemma chooseFold_mem (rs : List NamedResult) :
    ∀ (b : NamedResult), chooseFold b rs = b ∨ chooseFold b rs ∈ rs := by
  induction rs with
  | nil => intro b; left; rfl
  | cons r rest ih =>
      intro b
      simp only [chooseFold, List.foldl_cons]
      rcases ih (if b.discount_amount < r.discount_amount then r else b) with
        h | h
      · rw [chooseFold] at h
        rw [h]
        by_cases hlt : b.discount_amount < r.discount_amount
        · right; simp [hlt]
        · left; simp [hlt]
      · right
        exact List.mem_cons_of_mem r (by rw [chooseFold] at h; exact h)

lemma le_maxD (rs : List NamedResult) (r : NamedResult) (h : r ∈ rs) :
    r.discount_amount ≤ maxD rs := by
  induction rs with
  | nil => cases h
  | cons x rest ih =>
      rcases List.mem_cons.mp h with h' | h'
      · rw [h']; exact le_max_left _ _
      · exact le_trans (ih h') (le_max_right _ _)

lemma maxD_mem (rs : List NamedResult) (h : 0 < maxD rs) :
    ∃ r ∈ rs, r.discount_amount = maxD rs := by
  induction rs with
  | nil => exact absurd h (by simp [maxD])
  | cons x rest ih =>
      rcases le_total (maxD rest) x.discount_amount with h' | h'
      · exact ⟨x, List.mem_cons_self x rest, (max_eq_left h').symm⟩
      · have hmax : maxD (x :: rest) = maxD rest := max_eq_right h'
        rcases ih (by rw [hmax] at h; exact h) with ⟨w, hw, he⟩
        exact ⟨w, List.mem_cons_of_mem x hw, by rw [hmax, he]⟩

lemma chooseFold_find (M : ℚ) (rs : List NamedResult) :
    ∀ (b : NamedResult), b.discount_amount < M →
      (∀ r ∈ rs, r.discount_amount ≤ M) →
      (∃ r ∈ rs, r.discount_amount = M) →
      ∃ w, rs.find? (fun r => decide (r.discount_amount = M)) = some w ∧
        chooseFold b rs = w := by
  induction rs with
  | nil => intro b _ _ hex; simp at hex
  | cons r rest ih =>
      intro b hb hle hex
      by_cases hrM : r.discount_amount = M
      · refine ⟨r, by simp [List.find?, hrM], ?_⟩
        have hbr : b.discount_amount < r.discount_amount := hrM ▸ hb
        simp only [chooseFold, List.foldl_cons, if_pos hbr]
        exact chooseFold_of_forall_le rest r
          (fun r' hr' => hrM ▸ hle r' (List.mem_cons_of_mem r hr'))
      · have hex' : ∃ r' ∈ rest, r'.discount_amount = M := by
          rcases hex with ⟨r', hr', he⟩
          rcases List.mem_cons.mp hr' with h' | h'
          · exact absurd (h' ▸ he) hrM
          · exact ⟨r', h', he⟩
        have hstep : (if b.discount_amount < r.discount_amount then r
            else b).discount_amount < M := by
          by_cases hlt : b.discount_amount < r.discount_amount
          · simpa [hlt] using
              lt_of_le_of_ne (hle r (List.mem_cons_self r rest)) hrM
          · simpa [hlt] using hb
        rcases ih (if b.discount_amount < r.discount_amount then r else b)
            hstep (fun r' hr' => hle r' (List.mem_cons_of_mem r hr')) hex' with
          ⟨w, hfind, hfold⟩
        refine ⟨w, by simp [List.find?, hrM, hfind], ?_⟩
        simp only [chooseFold, List.foldl_cons]
        exact hfold

lemma applicableResults_mem (clock : Clock) (total : ℚ)
    (items : List LineItem) (cust : Customer) (objs : List StratObj)
    (r : NamedResult) (h : r ∈ applicableResults clock total items cust objs) :
    ∃ o ∈ objs, (apply_discount clock total items cust o).1.applicable = true ∧
      r = ⟨(apply_discount clock total items cust o).1, o.strat.name⟩ := by
  rcases List.mem_filterMap.mp h with ⟨o, ho, he⟩
  by_cases hap : (apply_discount clock total items cust o).1.applicable
  · exact ⟨o, ho, hap, by simp [hap] at he; exact he.symm⟩
  · simp [hap] at he

lemma applicableResults_applicable (clock : Clock) (total : ℚ)
    (items : List LineItem) (cust : Customer) (objs : List StratObj)
    (r : NamedResult) (h : r ∈ applicableResults clock total items cust objs) :
    r.applicable = true := by
  rcases applicableResults_mem clock total items cust objs r h with
    ⟨o, _, hap, he⟩
  rw [he]
  exact hap

lemma applyUpd_eq (clock : Clock) (total : ℚ) (items : List LineItem)
    (cust : Customer) (o : StratObj) :
    applyUpd clock total items cust o =
      if (apply_discount clock total items cust o).1.applicable then
        { o with
          usage_count := o.usage_count + 1
          total_savings := o.total_savings +
            (apply_discount clock total items cust o).1.discount_amount }
      else o := by
  by_cases h1 : is_valid_time clock.now o
  · by_cases h2 : o.strat.is_applicable clock total items cust
    · by_cases h3 :
        (o.strat.calculate_discount clock total items cust).applicable
      · simp [applyUpd, apply_discount, h1, h2, h3]
      · simp [applyUpd, apply_discount, h1, h2, h3]
    · simp [applyUpd, apply_discount, h1, h2, notApplicableResult]
  · simp [applyUpd, apply_discount, h1, expiredResult]

/-! ## Concrete fixtures used by counterexamples and witnesses.
`clock0` is a moment at which every strategy with `valid_from = 0`,
`valid_until = none` is inside its validity window. -/

def clock0 : Clock := ⟨0, 0, 0⟩

/-- A 0%-percentage strategy: applicable, with an applicable outcome of
discount `0`. -/
def zeroStrat : StratObj := ⟨.percentage "Zero" 0 0 none, 0, none, 0, 0⟩

def mgrZero : Manager := ⟨[zeroStrat], 0, 0⟩

/-- A 200%-percentage strategy. -/
def mgrMega : Manager := ⟨[⟨.percentage "Mega" 200 0 none, 0, none, 0, 0⟩], 0, 0⟩

def stratA10 : StratObj := ⟨.percentage "A" 10 0 none, 0, none, 0, 0⟩

def stratB10 : StratObj := ⟨.percentage "B" 10 0 none, 0, none, 0, 0⟩

def stratB20 : StratObj := ⟨.percentage "B20" 20 0 none, 0, none, 0, 0⟩

/-- Two equal-discount strategies, `A` registered first. -/
def mgrTie : Manager := ⟨[stratA10, stratB10], 0, 0⟩

/-- A fixed $2-off strategy. -/
def stratTwo : StratObj := ⟨.fixedAmount "Two" 2 0, 0, none, 0, 0⟩

/-- A 10% strategy and a fixed $2-off strategy, both applicable on a $10
order with discounts ($1 and $2) below the total. -/
def mgrBound : Manager := ⟨[stratA10, stratTwo], 0, 0⟩

/-- A 10% strategy followed by a 20% strategy: both applicable, `B20` wins. -/
def mgrAB : Manager := ⟨[stratA10, stratB20], 0, 0⟩

/-! ## Claim C1 -/

/-- C1, counterexample to the claim as stated: with a single registered 0%
percentage strategy on order total 10, the strategy is applicable and its
outcome has `applicable = true` (discount `0`), so the outcome of the
applicable strategy with maximal discount is that outcome; but
`calculate_best_discount` returns the initial non-applicable placeholder
(`strategy_name = "none"`, `applicable = false`) instead, because the source
only replaces the running best on a strictly larger discount starting
from `0.0`. -/
theorem c1_counterexample :
    (apply_discount clock0 10 [] none zeroStrat).1.applicable = true ∧
    (apply_discount clock0 10 [] none zeroStrat).1.discount_amount = 0 ∧
    (calculate_best_discount mgrZero clock0 10 [] none).1.applicable = false ∧
    (calculate_best_discount mgrZero clock0 10 [] none).1.strategy_name
      = "none" := by
  refine ⟨?_, ?_, ?_, ?_⟩ <;>
    simp [calculate_best_discount, bestLoop, apply_discount, is_valid_time,
      Strategy.is_applicable, Strategy.calculate_discount, percentageCalc,
      initBest, mgrZero, zeroStrat, clock0] <;>
    norm_num [pyRound2, roundHalfEven]

/-- C1 (amended): whenever some registered strategy produces an applicable
outcome with strictly positive discount, `calculate_best_discount` returns
the outcome of the first strategy (in registration order) achieving the
maximal discount among the applicable outcomes, with the full list of
applicable outcomes attached as `all_available`; in particular equal-discount
ties are resolved in favour of the earlier registration. -/
theorem c1_best_is_first_max (mgr : Manager) (clock : Clock) (total : ℚ)
    (items : List LineItem) (cust : Customer)
    (h : ∃ r ∈ applicableResults clock total items cust mgr.strategies,
      0 < r.discount_amount) :
    ∃ w, (applicableResults clock total items cust mgr.strategies).find?
        (fun r => decide (r.discount_amount =
          maxD (applicableResults clock total items cust mgr.strategies)))
        = some w ∧
      (calculate_best_discount mgr clock total items cust).1 =
        ⟨w, some (applicableResults clock total items cust mgr.strategies)⟩
    := by
  obtain ⟨r, hr, hpos⟩ := h
  have hM : 0 < maxD (applicableResults clock total items cust mgr.strategies)
    := lt_of_lt_of_le hpos
      (le_maxD (applicableResults clock total items cust mgr.strategies) r hr)
  have hinit : initBest.discount_amount <
      maxD (applicableResults clock total items cust mgr.strategies) := by
    simpa [initBest] using hM
  rcases chooseFold_find
      (maxD (applicableResults clock total items cust mgr.strategies))
      (applicableResults clock total items cust mgr.strategies) initBest hinit
      (fun r' h' =>
        le_maxD (applicableResults clock total items cust mgr.strategies) r' h')
      (maxD_mem (applicableResults clock total items cust mgr.strategies) hM)
    with ⟨w, hf, hc⟩
  refine ⟨w, hf, ?_⟩
  rw [calculate_best_fst, hc]

/-- C1, witness: on `mgrTie` (two applicable 10% strategies `A` then `B` on a
$10 order, equal discounts of $1) the amended theorem applies: its hypothesis
holds, and the winner is determined by the `find?` tie-break. -/
theorem c1_witness :
    (∃ r ∈ applicableResults clock0 10 [] none mgrTie.strategies,
      0 < r.discount_amount) ∧
    ∃ w, (applicableResults clock0 10 [] none mgrTie.strategies).find?
        (fun r => decide (r.discount_amount =
          maxD (applicableResults clock0 10 [] none mgrTie.strategies)))
        = some w ∧
      (calculate_best_discount mgrTie clock0 10 [] none).1 =
        ⟨w, some (applicableResults clock0 10 [] none mgrTie.strategies)⟩ := by
  have happ : (apply_discount clock0 10 [] none stratA10).1.applicable
      = true := by
    simp [apply_discount, is_valid_time, Strategy.is_applicable,
      Strategy.calculate_discount, percentageCalc, stratA10, clock0]
  have hdisc : (apply_discount clock0 10 [] none stratA10).1.discount_amount
      = 1 := by
    simp [apply_discount, is_valid_time, Strategy.is_applicable,
      Strategy.calculate_discount, percentageCalc, stratA10, clock0]
    norm_num [pyRound2, roundHalfEven]
  have h : ∃ r ∈ applicableResults clock0 10 [] none mgrTie.strategies,
      0 < r.discount_amount := by
    refine ⟨⟨(apply_discount clock0 10 [] none stratA10).1,
      stratA10.strat.name⟩, List.mem_filterMap.mpr ⟨stratA10, ?_, ?_⟩, ?_⟩
    · simp [mgrTie]
    · simp [happ]
    · show 0 < (apply_discount clock0 10 [] none stratA10).1.discount_amount
      rw [hdisc]; norm_num
  exact ⟨h, c1_best_is_first_max mgrTie clock0 10 [] none h⟩

/-! ## Claim C2 -/

/-- C2, counterexample to the claim as stated: a registered 200% percentage
strategy yields a discount of $20 on a $10 order, exceeding the order
total. -/
theorem c2_counterexample :
    (calculate_best_discount mgrMega clock0 10 [] none).1.discount_amount
      = 20 ∧ (10 : ℚ) < 20 := by
  refine ⟨?_, by norm_num⟩
  simp [calculate_best_discount, bestLoop, apply_discount, is_valid_time,
    Strategy.is_applicable, Strategy.calculate_discount, percentageCalc,
    initBest, mgrMega, clock0]
  norm_num [pyRound2, roundHalfEven]

/-- C2 (amended): when the order total is non-negative and each registered
strategy's own `apply_discount` outcome on these inputs has a discount not
exceeding the order total, then the discount returned by
`calculate_best_discount` does not exceed the order total.  (The unrestricted
claim fails, e.g. for a percentage strategy with percentage above 100.) -/
theorem c2_best_bounded_by_total (mgr : Manager) (clock : Clock) (total : ℚ)
    (items : List LineItem) (cust : Customer) (h0 : 0 ≤ total)
    (hb : ∀ o ∈ mgr.strategies,
      (apply_discount clock total items cust o).1.discount_amount ≤ total) :
    (calculate_best_discount mgr clock total items cust).1.discount_amount
      ≤ total := by
  rw [calculate_best_fst]
  show (chooseFold initBest
    (applicableResults clock total items cust mgr.strategies)).discount_amount
      ≤ total
  rcases chooseFold_mem
    (applicableResults clock total items cust mgr.strategies) initBest with
    h | h
  · rw [h]; simpa [initBest] using h0
  · rcases applicableResults_mem clock total items cust mgr.strategies _ h
      with ⟨o, ho, _, he⟩
    rw [he]
    exact hb o ho

/-- C2, witness for the amended theorem: on `mgrBound` (an applicable 10%
strategy and an applicable fixed $2-off strategy on a $10 order) both
hypotheses hold non-vacuously — each strategy's own outcome ($1 resp. $2) is
bounded by the total — and the theorem bounds the returned discount. -/
theorem c2_witness :
    (0 : ℚ) ≤ 10 ∧
    (∀ o ∈ mgrBound.strategies,
      (apply_discount clock0 10 [] none o).1.discount_amount ≤ 10) ∧
    (calculate_best_discount mgrBound clock0 10 [] none).1.discount_amount
      ≤ 10 := by
  have h0 : (0 : ℚ) ≤ 10 := by norm_num
  have hb : ∀ o ∈ mgrBound.strategies,
      (apply_discount clock0 10 [] none o).1.discount_amount ≤ 10 := by
    intro o ho
    have ho' : o = stratA10 ∨ o = stratTwo := by
      simpa [mgrBound] using ho
    rcases ho' with rfl | rfl
    · simp [apply_discount, is_valid_time, Strategy.is_applicable,
        Strategy.calculate_discount, percentageCalc, stratA10, clock0]
      norm_num [pyRound2, roundHalfEven]
    · simp [apply_discount, is_valid_time, Strategy.is_applicable,
        Strategy.calculate_discount, fixedAmountCalc, stratTwo, clock0]
  exact ⟨h0, hb, c2_best_bounded_by_total mgrBound clock0 10 [] none h0 hb⟩

/-! ## Claim C4 -/

/-- C4, counterexample to the claim as stated: with a single registered 0%
percentage strategy on a $10 order, the strategy *is* applicable (its
`is_applicable` holds, and its outcome has `applicable = true`), yet
`calculate_best_discount` returns the `applicable = false` /
"No applicable discounts" outcome. -/
theorem c4_counterexample :
    zeroStrat.strat.is_applicable clock0 10 [] none = true ∧
    (calculate_best_discount mgrZero clock0 10 [] none).1.applicable = false ∧
    (calculate_best_discount mgrZero clock0 10 [] none).1.reason
      = "No applicable discounts" := by
  refine ⟨?_, ?_, ?_⟩ <;>
    simp [calculate_best_discount, bestLoop, apply_discount, is_valid_time,
      Strategy.is_applicable, Strategy.calculate_discount, percentageCalc,
      initBest, mgrZero, zeroStrat, clock0] <;>
    norm_num [pyRound2, roundHalfEven]

/-- C4 (amended): `calculate_best_discount` returns an applicable outcome
exactly when some registered strategy yields an applicable outcome with
strictly positive discount; otherwise (in particular when no strategy is
applicable at all) it returns the `applicable = false` outcome with discount
`0`, reason "No applicable discounts" and strategy name "none". -/
theorem c4_no_applicable_outcome (mgr : Manager) (clock : Clock) (total : ℚ)
    (items : List LineItem) (cust : Customer) :
    ((calculate_best_discount mgr clock total items cust).1.applicable = true
      ↔ ∃ r ∈ applicableResults clock total items cust mgr.strategies,
          0 < r.discount_amount) ∧
    ((calculate_best_discount mgr clock total items cust).1.applicable = false
      → (calculate_best_discount mgr clock total items cust).1.discount_amount
          = 0 ∧
        (calculate_best_discount mgr clock total items cust).1.reason
          = "No applicable discounts" ∧
        (calculate_best_discount mgr clock total items cust).1.strategy_name
          = "none") := by
  have hbest : (calculate_best_discount mgr clock total items cust).1 =
      ⟨chooseFold initBest
          (applicableResults clock total items cust mgr.strategies),
        some (applicableResults clock total items cust mgr.strategies)⟩ :=
    calculate_best_fst mgr clock total items cust
  have hchar : (chooseFold initBest
      (applicableResults clock total items cust mgr.strategies)).applicable
        = true ↔
      ∃ r ∈ applicableResults clock total items cust mgr.strategies,
        0 < r.discount_amount := by
    constructor
    · intro happ
      by_contra hno
      push_neg at hno
      have : chooseFold initBest
          (applicableResults clock total items cust mgr.strategies)
          = initBest :=
        chooseFold_of_forall_le _ initBest
          (fun r hr => by simpa [initBest] using hno r hr)
      rw [this] at happ
      simp [initBest] at happ
    · intro ⟨r, hr, hpos⟩
      have hM : 0 < maxD
          (applicableResults clock total items cust mgr.strategies) :=
        lt_of_lt_of_le hpos (le_maxD _ r hr)
      rcases chooseFold_find
          (maxD (applicableResults clock total items cust mgr.strategies))
          (applicableResults clock total items cust mgr.strategies) initBest
          (by simpa [initBest] using hM) (fun r' h' => le_maxD _ r' h')
          (maxD_mem _ hM) with ⟨w, hf, hc⟩
      rw [hc]
      exact applicableResults_applicable clock total items cust mgr.strategies
        w (List.mem_of_find?_eq_some hf)
  constructor
  · rw [hbest]
    exact hchar
  · intro hfalse
    rw [hbest] at hfalse ⊢
    have : chooseFold initBest
        (applicableResults clock total items cust mgr.strategies)
        = initBest := by
      rcases chooseFold_mem
          (applicableResults clock total items cust mgr.strategies) initBest
        with h | h
      · exact h
      · exact absurd
          (applicableResults_applicable clock total items cust mgr.strategies
            _ h) (by simpa using hfalse)
    simp only [this]
    exact ⟨rfl, rfl, rfl⟩

/-! ## Claim C5 -/

/-- C5, counterexample to the claim as stated: two applicable percentage
strategies (10% and 20%) on a $10 order; the 20% strategy wins, yet the
losing 10% strategy's usage counter is also incremented (to 1): the source
increments counters inside `apply_discount` for every applicable strategy
during the scan, not only for the winner. -/
theorem c5_counterexample :
    (calculate_best_discount mgrAB clock0 10 [] none).1.strategy_name
      = "B20" ∧
    ((calculate_best_discount mgrAB clock0 10 [] none).2.strategies.map
      (fun o => o.usage_count)) = [1, 1] := by
  refine ⟨?_, ?_⟩ <;>
    simp [calculate_best_discount, bestLoop, apply_discount, is_valid_time,
      Strategy.is_applicable, Strategy.calculate_discount, percentageCalc,
      initBest, mgrAB, stratA10, stratB20, clock0, Strategy.name] <;>
    norm_num [pyRound2, roundHalfEven]

/-- C5 (amended): after `calculate_best_discount`, *every* strategy whose
`apply_discount` outcome on these inputs was applicable has its usage count
incremented by one and the outcome's discount added to its savings total,
and every other strategy (outcome not applicable, e.g. outside its validity
window or failing its applicability predicate) is unchanged — not only the
winning strategy. -/
theorem c5_counter_updates (mgr : Manager) (clock : Clock) (total : ℚ)
    (items : List LineItem) (cust : Customer) :
    (calculate_best_discount mgr clock total items cust).2.strategies =
      mgr.strategies.map (fun o =>
        if (apply_discount clock total items cust o).1.applicable then
          { o with
            usage_count := o.usage_count + 1
            total_savings := o.total_savings +
              (apply_discount clock total items cust o).1.discount_amount }
        else o) := by
  rw [calculate_best_strategies]
  exact List.map_congr_left (fun o _ => applyUpd_eq clock total items cust o)

/-! ## Claim C6 -/

/-- The claim's discount formula for a percentage strategy, written from the
spec's words ("discount = total * pct/100, optionally capped at a maximum
absolute amount"), amended by the two facts the source forces: the cap is
only honoured when it is set *and nonzero* (Python truthiness of
`if self.max_discount_amount:`), and the result is rounded to cents. -/
def percentageSpecRaw (pct : ℚ) (maxDiscount : Option ℚ) (total : ℚ) : ℚ :=
  match maxDiscount with
  | some c => if c ≠ 0 ∧ c < total * (pct / 100) then c else total * (pct / 100)
  | none => total * (pct / 100)

/-- C6, counterexample to the claim as stated: a 15% strategy on a $0.03
order returns a discount of $0.00 (the code rounds to cents), not the claimed
`order_total * pct / 100 = $0.0045`. -/
theorem c6_counterexample :
    ((Strategy.percentage "P" 15 0 none).calculate_discount clock0 (3/100) []
      none).discount_amount = 0 ∧
    (0 : ℚ) ≠ (3/100) * (15/100) := by
  constructor
  · simp [Strategy.calculate_discount, percentageCalc, clock0]
    norm_num [pyRound2, roundHalfEven]
  · norm_num

/-- C6 (amended): a percentage strategy is applicable iff the order total
reaches its minimum order amount; its discount is the round-half-even-to-
cents of `total * pct / 100`, reduced to the cap `c` when a cap is configured,
nonzero, and exceeded by that product; and in particular `pct = 15`,
`min = 10.0` on a total of `20.0` yields an applicable outcome of exactly
`3.00` through the full `apply_discount` path. -/
theorem c6_percentage_characterization :
    (∀ (name : String) (pct minOrder : ℚ) (maxD : Option ℚ) (clock : Clock)
        (total : ℚ) (items : List LineItem) (cust : Customer),
      (Strategy.percentage name pct minOrder maxD).is_applicable clock total
          items cust = true ↔ minOrder ≤ total) ∧
    (∀ (name : String) (pct minOrder : ℚ) (maxD : Option ℚ) (clock : Clock)
        (total : ℚ) (items : List LineItem) (cust : Customer),
      ((Strategy.percentage name pct minOrder maxD).calculate_discount clock
          total items cust).discount_amount
        = pyRound2 (percentageSpecRaw pct maxD total) ∧
      ((Strategy.percentage name pct minOrder maxD).calculate_discount clock
          total items cust).applicable = true) ∧
    ((apply_discount clock0 20 [] none
        ⟨.percentage "Student" 15 10 none, 0, none, 0, 0⟩).1.discount_amount
      = 3 ∧
     (apply_discount clock0 20 [] none
        ⟨.percentage "Student" 15 10 none, 0, none, 0, 0⟩).1.applicable
      = true) := by
  refine ⟨?_, ?_, ?_, ?_⟩
  · intro name pct minOrder maxD clock total items cust
    simp [Strategy.is_applicable]
  · intro name pct minOrder maxD clock total items cust
    refine ⟨?_, by simp [Strategy.calculate_discount, percentageCalc]⟩
    simp only [Strategy.calculate_discount, percentageCalc]
    rcases maxD with _ | c
    · simp [percentageSpecRaw]
    · by_cases hc : c = 0
      · simp [percentageSpecRaw, hc]
      · rcases le_or_lt (total * (pct / 100)) c with hle | hlt
        · simp [percentageSpecRaw, hc, min_eq_left hle, not_lt.mpr hle]
        · simp [percentageSpecRaw, hc, hlt, min_eq_right (le_of_lt hlt)]
  · simp [apply_discount, is_valid_time, Strategy.is_applicable,
      Strategy.calculate_discount, percentageCalc, clock0]
    norm_num [pyRound2, roundHalfEven]
  · simp [apply_discount, is_valid_time, Strategy.is_applicable,
      Strategy.calculate_discount, percentageCalc, clock0]
    norm_num

/-! ## Claim C8 -/

/-- The claim's time-window predicate, written from the spec's words: within
start/end when they are ordered, wrapped past midnight otherwise. -/
def timeWindowSpec (startTime endTime t : ℕ) : Prop :=
  if startTime ≤ endTime then startTime ≤ t ∧ t ≤ endTime
  else startTime ≤ t ∨ t ≤ endTime

/-- C8, counterexample to the claim as stated: a time-window strategy at 20%,
applicable at the given clock (window 0–10 at time 5), returns $0.01 on a
$0.03 order — the code rounds to cents — not the claimed
`total * pct / 100 = $0.006`. -/
theorem c8_counterexample :
    (apply_discount ⟨0, 5, 0⟩ (3/100) [] none
      ⟨.timeBased "HH" 20 0 10 false, 0, none, 0, 0⟩).1.applicable = true ∧
    (apply_discount ⟨0, 5, 0⟩ (3/100) [] none
      ⟨.timeBased "HH" 20 0 10 false, 0, none, 0, 0⟩).1.discount_amount
      = 1/100 ∧
    (1/100 : ℚ) ≠ (3/100) * (20/100) := by
  refine ⟨?_, ?_, by norm_num⟩
  · simp [apply_discount, is_valid_time, Strategy.is_applicable,
      Strategy.calculate_discount, timeBasedIsApplicable, timeBasedCalc]
  · simp [apply_discount, is_valid_time, Strategy.is_applicable,
      Strategy.calculate_discount, timeBasedIsApplicable, timeBasedCalc]
    norm_num [pyRound2, roundHalfEven]

/-- C8 (amended): a time-window strategy is applicable iff the clock's
time-of-day lies in the configured window (ordinary when `start ≤ end`,
wrapping past midnight when `start > end`) and, when `weekdays_only` is set,
the weekday is not Saturday (5) or Sunday (6); when applicable its discount
is the configured percentage of the order total rounded to cents.  In
particular a 14:00–17:00 window is applicable at 15:00 and not at 20:00
(times as minutes since midnight). -/
theorem c8_time_window_characterization :
    (∀ (name : String) (pct : ℚ) (st en : ℕ) (wk : Bool) (clock : Clock)
        (total : ℚ) (items : List LineItem) (cust : Customer),
      (Strategy.timeBased name pct st en wk).is_applicable clock total items
          cust = true ↔
        (timeWindowSpec st en clock.timeOfDay ∧
          (wk = true → clock.weekday.val < 5))) ∧
    (∀ (name : String) (pct : ℚ) (st en : ℕ) (wk : Bool) (clock : Clock)
        (total : ℚ) (items : List LineItem) (cust : Customer),
      ((Strategy.timeBased name pct st en wk).calculate_discount clock total
          items cust).discount_amount = pyRound2 (total * (pct / 100)) ∧
      ((Strategy.timeBased name pct st en wk).calculate_discount clock total
          items cust).applicable = true) ∧
    ((Strategy.timeBased "HH" 20 840 1020 false).is_applicable ⟨0, 900, 0⟩ 10
      [] none = true ∧
     (Strategy.timeBased "HH" 20 840 1020 false).is_applicable ⟨0, 1200, 0⟩ 10
      [] none = false) := by
  refine ⟨?_, ?_, ?_, ?_⟩
  · intro name pct st en wk clock total items cust
    simp only [Strategy.is_applicable, timeBasedIsApplicable, timeWindowSpec]
    rcases wk with _ | _
    · by_cases hse : st ≤ en
      · simp [hse]
      · simp [hse]
    · by_cases hwd : 5 ≤ clock.weekday.val
      · by_cases hse : st ≤ en
        · simp [hse, hwd, not_lt.mpr hwd]
        · simp [hse, hwd, not_lt.mpr hwd]
      · by_cases hse : st ≤ en
        · simp [hse, hwd, not_le.mp hwd]
        · simp [hse, hwd, not_le.mp hwd]
  · intro name pct st en wk clock total items cust
    exact ⟨by simp [Strategy.calculate_discount, timeBasedCalc],
      by simp [Strategy.calculate_discount, timeBasedCalc]⟩
  · simp [Strategy.is_applicable, timeBasedIsApplicable]
  · simp [Strategy.is_applicable, timeBasedIsApplicable]

/-! ## Claim C3 -/

/-- Total of the individual discounts in a stacked breakdown. -/
def sumD (app : List AppliedStrategy) : ℚ := (app.map (fun a => a.discount)).sum

/-- The claim's stacked breakdown, written from the spec's words: walk the
registered rules *in registration order* carrying a running total; every rule
whose `apply_discount` outcome on the current (already reduced) running total
is applicable contributes an entry with the discount it computed on that
running total, which is then subtracted before the next rule is consulted. -/
def stackedSpec (clock : Clock) (items : List LineItem) (cust : Customer) :
    List StratObj → ℚ → List AppliedStrategy
  | [], _ => []
  | o :: rest, ct =>
      if (apply_discount clock ct items cust o).1.applicable then
        ⟨o.strat.name,
          (apply_discount clock ct items cust o).1.discount_amount,
          (apply_discount clock ct items cust o).1.discount_type⟩ ::
          stackedSpec clock items cust rest
            (ct - (apply_discount clock ct items cust o).1.discount_amount)
      else stackedSpec clock items cust rest ct

lemma stackLoop_spec (clock : Clock) (items : List LineItem) (cust : Customer)
    (l : List StratObj) :
    ∀ (td ct : ℚ) (app : List AppliedStrategy),
      (stackLoop clock items cust l td ct app).2.2.2 =
        app ++ stackedSpec clock items cust l ct ∧
      (stackLoop clock items cust l td ct app).2.1 =
        td + sumD (stackedSpec clock items cust l ct) ∧
      (stackLoop clock items cust l td ct app).2.2.1 =
        ct - sumD (stackedSpec clock items cust l ct) := by
  induction l with
  | nil =>
      intro td ct app
      refine ⟨?_, ?_, ?_⟩ <;> simp [stackLoop, stackedSpec, sumD]
  | cons o rest ih =>
      intro td ct app
      by_cases h : (apply_discount clock ct items cust o).1.applicable
      · obtain ⟨h1, h2, h3⟩ :=
          ih (td + (apply_discount clock ct items cust o).1.discount_amount)
            (ct - (apply_discount clock ct items cust o).1.discount_amount)
            (app ++ [⟨o.strat.name,
              (apply_discount clock ct items cust o).1.discount_amount,
              (apply_discount clock ct items cust o).1.discount_type⟩])
        refine ⟨?_, ?_, ?_⟩
        · simp only [stackLoop, stackedSpec, h, if_true, h1,
            List.append_assoc, List.singleton_append]
        · simp only [stackLoop, stackedSpec, h, if_true, h2, sumD,
            List.map_cons, List.sum_cons]
          ring
        · simp only [stackLoop, stackedSpec, h, if_true, h3, sumD,
            List.map_cons, List.sum_cons]
          ring
      · obtain ⟨h1, h2, h3⟩ := ih td ct app
        refine ⟨?_, ?_, ?_⟩
        · simp [stackLoop, stackedSpec, h, h1]
        · simp [stackLoop, stackedSpec, h, h2]
        · simp [stackLoop, stackedSpec, h, h3]

/-- The 10%-then-$2-off fixture of the claim's worked example. -/
def mgrStack : Manager :=
  ⟨[⟨.percentage "Ten" 10 0 none, 0, none, 0, 0⟩,
    ⟨.fixedAmount "TwoOff" 2 0, 0, none, 0, 0⟩], 0, 0⟩

/-- Two 10% rules in sequence: the second computes on the reduced running
total, so on a $50 order it gives $4.50 (10% of $45), not $5 — an input that
distinguishes running-total from original-total application. -/
def mgrStack2 : Manager :=
  ⟨[⟨.percentage "Ten" 10 0 none, 0, none, 0, 0⟩,
    ⟨.percentage "TenB" 10 0 none, 0, none, 0, 0⟩], 0, 0⟩

/-- A sub-cent fixed discount of $1.002. -/
def mgrSubCent : Manager :=
  ⟨[⟨.fixedAmount "F" (501/500) 0, 0, none, 0, 0⟩], 0, 0⟩

/-- C3, counterexample to the claim as stated: stacking a single fixed
$1.002-off rule on a $10 order returns `discount_amount = 1.00` (the sum is
rounded to cents) while the sum of the individual discounts — equally
`original_total - final_total` in the details — is $1.002; the claimed
equality between the returned amount and the (unrounded) sum fails. -/
theorem c3_counterexample :
    ((calculate_multiple_discounts mgrSubCent clock0 10 [] none true).1).discount_amount = 1 ∧
    ((calculate_multiple_discounts mgrSubCent clock0 10 [] none true).1).details = Details.stacked [⟨"F", 501/500, "fixed_amount"⟩] 10 (10 - 501/500) ∧
    (1 : ℚ) ≠ 10 - (10 - 501/500) := by
  refine ⟨?_, ?_, by norm_num⟩ <;>
    simp [calculate_multiple_discounts, stackLoop, apply_discount,
      is_valid_time, Strategy.is_applicable, Strategy.calculate_discount,
      fixedAmountCalc, mgrSubCent, clock0, Strategy.name] <;>
    norm_num [pyRound2, roundHalfEven, min_def]

/-- C3 (amended): in stacking mode the returned breakdown is *exactly*
`stackedSpec`, the spec-side walk of every registered rule in registration
order in which each applicable rule's discount is computed against the
running total after all previous discounts in the sequence have been
subtracted; the returned `discount_amount` is the round-half-even-to-cents of
the sum of those individual discounts, and the details report the original
total together with a final total equal to the original minus the unrounded
sum.  In particular 10% followed by $2 off on a $50 order yields exactly
`discount_amount = 7.00` with `final_total = 43`; and 10% followed by another
10% yields $5 then $4.50 (10% of the reduced $45, not $5 again), for a total
of $9.50 and `final_total = 40.50`. -/
theorem c3_stacking_characterization :
    (∀ (mgr : Manager) (clock : Clock) (total : ℚ) (items : List LineItem)
        (cust : Customer),
      (calculate_multiple_discounts mgr clock total items cust true).1 =
        ⟨⟨⟨pyRound2 (sumD (stackedSpec clock items cust mgr.strategies total)),
            "stacked",
            !(stackedSpec clock items cust mgr.strategies total).isEmpty,
            "Stacked " ++
              toString
                (stackedSpec clock items cust mgr.strategies total).length ++
              " discounts",
            .stacked (stackedSpec clock items cust mgr.strategies total) total
              (total -
                sumD (stackedSpec clock items cust mgr.strategies total))⟩,
          "multiple"⟩, none⟩) ∧
    (((calculate_multiple_discounts mgrStack clock0 50 [] none true).1).discount_amount = 7 ∧
     ((calculate_multiple_discounts mgrStack clock0 50 [] none true).1).details = Details.stacked
          [⟨"Ten", 5, "percentage"⟩, ⟨"TwoOff", 2, "fixed_amount"⟩] 50 43) ∧
    (((calculate_multiple_discounts mgrStack2 clock0 50 [] none true).1).discount_amount = 19/2 ∧
     ((calculate_multiple_discounts mgrStack2 clock0 50 [] none true).1).details = Details.stacked
          [⟨"Ten", 5, "percentage"⟩, ⟨"TenB", 9/2, "percentage"⟩] 50 (81/2)) := by
  refine ⟨?_, ⟨?_, ?_⟩, ⟨?_, ?_⟩⟩
  · intro mgr clock total items cust
    obtain ⟨h1, h2, h3⟩ :=
      stackLoop_spec clock items cust mgr.strategies 0 total []
    simp only [calculate_multiple_discounts, Bool.true_eq_false, if_false,
      List.nil_append] at *
    rw [h1, h2, h3]
    simp
  · simp [calculate_multiple_discounts, stackLoop, apply_discount,
      is_valid_time, Strategy.is_applicable, Strategy.calculate_discount,
      percentageCalc, fixedAmountCalc, mgrStack, clock0, Strategy.name]
    norm_num [pyRound2, roundHalfEven, min_def]
  · simp [calculate_multiple_discounts, stackLoop, apply_discount,
      is_valid_time, Strategy.is_applicable, Strategy.calculate_discount,
      percentageCalc, fixedAmountCalc, mgrStack, clock0, Strategy.name]
    norm_num [pyRound2, roundHalfEven, min_def]
  · simp [calculate_multiple_discounts, stackLoop, apply_discount,
      is_valid_time, Strategy.is_applicable, Strategy.calculate_discount,
      percentageCalc, mgrStack2, clock0, Strategy.name]
    norm_num [pyRound2, roundHalfEven]
  · simp [calculate_multiple_discounts, stackLoop, apply_discount,
      is_valid_time, Strategy.is_applicable, Strategy.calculate_discount,
      percentageCalc, mgrStack2, clock0, Strategy.name]
    norm_num [pyRound2, roundHalfEven]

/-! ## Claim C7 -/

/-- Aggregated quantity of all line entries named `n` (the claim's
"aggregated per item name across all line entries"). -/
def aggQty (items : List LineItem) (n : String) : ℤ :=
  ((items.filter (fun it => it.pyName = n)).map (fun it => it.pyQty)).sum

/-- Whether some line entry is named `n`. -/
def occursName (items : List LineItem) (n : String) : Bool :=
  items.any (fun it => decide (it.pyName = n))

/-- The unit price the source's `item_prices` dict records for `n`: the price
of the most recently listed entry of that name (`a` is the accumulator the
scan starts from). -/
def lastPriceFrom (a : Option ℚ) (items : List LineItem) (n : String) :
    Option ℚ :=
  items.foldl (fun acc it => if it.pyName = n then some it.pyPrice else acc) a

def lastPrice (items : List LineItem) (n : String) : Option ℚ :=
  lastPriceFrom none items n

/-- The claim's discount formula for a BOGO strategy: summed over the target
names, every pair of matching units awards the discount percentage of that
name's (last listed) unit price.  (`aggQty items n / 2` is the claim's
`floor(quantity / 2)`: under the guard `2 ≤ aggQty items n` the two
coincide.) -/
def bogoSpecSum (targets : List String) (pct : ℚ) (items : List LineItem) :
    ℚ :=
  Finset.sum targets.toFinset (fun n =>
    if 2 ≤ aggQty items n then
      ((aggQty items n / 2 : ℤ) : ℚ) * ((lastPrice items n).getD 0) * (pct / 100)
    else 0)

lemma alookup_upsert_self {A : Type} (l : List (String × A)) (k : String)
    (v : A) : alookup (upsert l k v) k = some v := by
  induction l with
  | nil => simp [upsert, alookup]
  | cons e rest ih =>
      by_cases h : e.1 = k
      · simp [upsert, h, alookup]
      · simp [upsert, h, alookup, ih]

lemma alookup_upsert_ne {A : Type} (l : List (String × A)) (k k' : String)
    (v : A) (h : k' ≠ k) : alookup (upsert l k v) k' = alookup l k' := by
  induction l with
  | nil => simp [upsert, alookup, Ne.symm h]
  | cons e rest ih =>
      by_cases he : e.1 = k
      · simp [upsert, he, alookup, Ne.symm h]
      · simp [upsert, he, alookup, ih]

lemma upsert_keys {A : Type} (l : List (String × A)) (k : String) (v : A) :
    (upsert l k v).map Prod.fst =
      if k ∈ l.map Prod.fst then l.map Prod.fst
      else l.map Prod.fst ++ [k] := by
  induction l with
  | nil => simp [upsert]
  | cons e rest ih =>
      by_cases h : e.1 = k
      · simp [upsert, h]
      · by_cases hm : k ∈ rest.map Prod.fst
        · simp [upsert, h, ih, hm, Ne.symm h]
        · simp [upsert, h, ih, hm, Ne.symm h]

lemma upsert_keys_nodup {A : Type} (l : List (String × A)) (k : String)
    (v : A) (h : (l.map Prod.fst).Nodup) :
    ((upsert l k v).map Prod.fst).Nodup := by
  rw [upsert_keys]
  by_cases hm : k ∈ l.map Prod.fst
  · simpa [hm] using h
  · simp only [hm, if_false]
    refine List.Nodup.append h (List.nodup_singleton k) ?_
    intro a ha hb
    rw [List.mem_singleton] at hb
    exact hm (hb ▸ ha)

lemma alookup_of_mem {A : Type} (l : List (String × A))
    (h : (l.map Prod.fst).Nodup) (e : String × A) (he : e ∈ l) :
    alookup l e.1 = some e.2 := by
  induction l with
  | nil => cases he
  | cons x rest ih =>
      rcases List.mem_cons.mp he with h' | h'
      · simp [h', alookup]
      · have hx : x.1 ≠ e.1 := by
          intro hcon
          have : e.1 ∈ rest.map Prod.fst :=
            List.mem_map.mpr ⟨e, h', rfl⟩
          rw [List.map_cons, List.nodup_cons] at h
          exact h.1 (hcon ▸ this)
        rw [List.map_cons, List.nodup_cons] at h
        simp [alookup, hx, ih h.2 h']

lemma mem_of_alookup {A : Type} (l : List (String × A)) (n : String) (c : A)
    (h : alookup l n = some c) : (n, c) ∈ l := by
  induction l with
  | nil => simp [alookup] at h
  | cons x rest ih =>
      by_cases hx : x.1 = n
      · rw [alookup, if_pos hx] at h
        have hxe : x = (n, c) := by
          obtain ⟨x1, x2⟩ := x
          simp only at hx
          have hx2 : x2 = c := by injection h
          rw [hx, hx2]
        rw [← hxe]
        exact List.mem_cons_self _ _
      · rw [alookup, if_neg hx] at h
        exact List.mem_cons_of_mem x (ih h)

lemma alookup_eq_none {A : Type} (l : List (String × A)) (n : String) :
    alookup l n = none ↔ n ∉ l.map Prod.fst := by
  induction l with
  | nil => simp [alookup]
  | cons x rest ih =>
      by_cases hx : x.1 = n
      · simp [alookup, hx]
      · simp [alookup, hx, ih, Ne.symm hx]

lemma aggQty_cons (it : LineItem) (rest : List LineItem) (n : String) :
    aggQty (it :: rest) n =
      (if it.pyName = n then it.pyQty else 0) + aggQty rest n := by
  by_cases h : it.pyName = n
  · simp [aggQty, List.filter_cons, h]
  · simp [aggQty, List.filter_cons, h]

lemma aggQty_of_not_occurs (items : List LineItem) (n : String)
    (h : occursName items n = false) : aggQty items n = 0 := by
  induction items with
  | nil => simp [aggQty]
  | cons it rest ih =>
      simp only [occursName, List.any_cons, Bool.or_eq_false_iff] at h
      have h1 : ¬ it.pyName = n := by simpa using h.1
      rw [aggQty_cons, if_neg h1, ih (by simpa [occursName] using h.2)]
      ring

lemma lastPriceFrom_override (items : List LineItem) (n : String) :
    ∀ (a : Option ℚ),
      lastPriceFrom a items n =
        match lastPrice items n with
        | some p => some p
        | none => a := by
  induction items with
  | nil => intro a; simp [lastPrice, lastPriceFrom]
  | cons it rest ih =>
      intro a
      by_cases h : it.pyName = n
      · show lastPriceFrom (if it.pyName = n then some it.pyPrice else a) rest n
            = _
        rw [if_pos h, ih (some it.pyPrice)]
        have hr : lastPrice (it :: rest) n
            = lastPriceFrom (some it.pyPrice) rest n := by
          show lastPriceFrom (if it.pyName = n then some it.pyPrice else none)
              rest n = _
          rw [if_pos h]
        rw [hr, ih (some it.pyPrice)]
        cases lastPrice rest n <;> rfl
      · show lastPriceFrom (if it.pyName = n then some it.pyPrice else a) rest n
            = _
        rw [if_neg h, ih a]
        have hr : lastPrice (it :: rest) n = lastPrice rest n := by
          show lastPriceFrom (if it.pyName = n then some it.pyPrice else none)
              rest n = _
          rw [if_neg h]
          rfl
        rw [hr]

lemma bogoFold_fst_lookup (targets : List String) (items : List LineItem) :
    ∀ (acc : List (String × ℤ) × List (String × ℚ)) (n : String),
      alookup (items.foldl (bogoStep targets) acc).1 n =
        if n ∈ targets then
          (match alookup acc.1 n with
           | some c => some (c + aggQty items n)
           | none =>
               if occursName items n then some (aggQty items n) else none)
        else alookup acc.1 n := by
  induction items with
  | nil =>
      intro acc n
      by_cases ht : n ∈ targets
      · cases hl : alookup acc.1 n <;>
          simp [ht, hl, aggQty, occursName]
      · simp [ht]
  | cons it rest ih =>
      intro acc n
      rw [List.foldl_cons]
      by_cases hmem : it.pyName ∈ targets
      · by_cases hn : it.pyName = n
        · subst hn
          rw [ih]
          have hacc1 : (bogoStep targets acc it).1 =
              upsert acc.1 it.pyName (alookupD acc.1 it.pyName 0 + it.pyQty) :=
            by simp [bogoStep, hmem]
          rw [hacc1, alookup_upsert_self]
          rw [if_pos hmem, if_pos hmem]
          cases hl : alookup acc.1 it.pyName with
          | some c =>
              simp [alookupD, hl, aggQty_cons, add_assoc]
          | none =>
              simp [alookupD, hl, aggQty_cons, occursName, List.any_cons]
        · rw [ih]
          have hacc1 : alookup (bogoStep targets acc it).1 n
              = alookup acc.1 n := by
            simp only [bogoStep, if_pos hmem]
            exact alookup_upsert_ne _ _ _ _ (Ne.symm hn)
          rw [hacc1]
          have hagg : aggQty (it :: rest) n = aggQty rest n := by
            rw [aggQty_cons, if_neg hn]; ring
          have hocc : occursName (it :: rest) n = occursName rest n := by
            simp [occursName, List.any_cons, hn]
          rw [hagg, hocc]
      · have hacc : bogoStep targets acc it = acc := by
          simp [bogoStep, hmem]
        rw [hacc, ih]
        by_cases hn : it.pyName = n
        · subst hn
          simp [hmem]
        · have hagg : aggQty (it :: rest) n = aggQty rest n := by
            rw [aggQty_cons, if_neg hn]; ring
          have hocc : occursName (it :: rest) n = occursName rest n := by
            simp [occursName, List.any_cons, hn]
          rw [hagg, hocc]

lemma bogoFold_snd_lookup (targets : List String) (items : List LineItem) :
    ∀ (acc : List (String × ℤ) × List (String × ℚ)) (n : String),
      alookup (items.foldl (bogoStep targets) acc).2 n =
        if n ∈ targets then
          (match lastPrice items n with
           | some p => some p
           | none => alookup acc.2 n)
        else alookup acc.2 n := by
  induction items with
  | nil =>
      intro acc n
      by_cases ht : n ∈ targets
      · simp [ht, lastPrice, lastPriceFrom]
      · simp [ht]
  | cons it rest ih =>
      intro acc n
      rw [List.foldl_cons]
      by_cases hmem : it.pyName ∈ targets
      · by_cases hn : it.pyName = n
        · subst hn
          rw [ih]
          have hacc2 : alookup (bogoStep targets acc it).2 it.pyName
              = some it.pyPrice := by
            simp only [bogoStep, if_pos hmem]
            exact alookup_upsert_self _ _ _
          rw [hacc2, if_pos hmem, if_pos hmem]
          have hr : lastPrice (it :: rest) it.pyName
              = lastPriceFrom (some it.pyPrice) rest it.pyName := by
            show lastPriceFrom (if it.pyName = it.pyName then some it.pyPrice
              else none) rest it.pyName = _
            rw [if_pos rfl]
          rw [hr, lastPriceFrom_override]
          cases lastPrice rest it.pyName <;> rfl
        · rw [ih]
          have hacc2 : alookup (bogoStep targets acc it).2 n
              = alookup acc.2 n := by
            simp only [bogoStep, if_pos hmem]
            exact alookup_upsert_ne _ _ _ _ (Ne.symm hn)
          rw [hacc2]
          have hr : lastPrice (it :: rest) n = lastPrice rest n := by
            show lastPriceFrom (if it.pyName = n then some it.pyPrice else none)
                rest n = _
            rw [if_neg hn]
            rfl
          rw [hr]
      · have hacc : bogoStep targets acc it = acc := by
          simp [bogoStep, hmem]
        rw [hacc, ih]
        by_cases hn : it.pyName = n
        · subst hn
          simp [hmem]
        · have hr : lastPrice (it :: rest) n = lastPrice rest n := by
            show lastPriceFrom (if it.pyName = n then some it.pyPrice else none)
                rest n = _
            rw [if_neg hn]
            rfl
          rw [hr]

lemma bogoBuild_fst_lookup (targets : List String) (items : List LineItem)
    (n : String) :
    alookup (bogoBuild targets items).1 n =
      if n ∈ targets ∧ occursName items n = true then some (aggQty items n)
      else none := by
  rw [bogoBuild, bogoFold_fst_lookup]
  by_cases ht : n ∈ targets
  · by_cases ho : occursName items n
    · simp [ht, ho, alookup]
    · simp [ht, ho, alookup]
  · simp [ht, alookup]

lemma bogoBuild_snd_lookup (targets : List String) (items : List LineItem)
    (n : String) :
    alookup (bogoBuild targets items).2 n =
      if n ∈ targets then lastPrice items n else none := by
  rw [bogoBuild, bogoFold_snd_lookup]
  by_cases ht : n ∈ targets
  · cases hl : lastPrice items n <;> simp [ht, hl, alookup]
  · simp [ht, alookup]

lemma bogoBuild_keys_nodup (targets : List String) (items : List LineItem) :
    (((bogoBuild targets items).1).map Prod.fst).Nodup := by
  rw [bogoBuild]
  have main : ∀ (l : List LineItem)
      (acc : List (String × ℤ) × List (String × ℚ)),
      ((acc.1).map Prod.fst).Nodup →
      (((l.foldl (bogoStep targets) acc).1).map Prod.fst).Nodup := by
    intro l
    induction l with
    | nil => intro acc h; exact h
    | cons it rest ih =>
        intro acc h
        rw [List.foldl_cons]
        apply ih
        by_cases hmem : it.pyName ∈ targets
        · simp only [bogoStep, if_pos hmem]
          exact upsert_keys_nodup _ _ _ h
        · simpa [bogoStep, hmem] using h
  exact main items ([], []) (by simp)

lemma bogoBuild_keys_mem (targets : List String) (items : List LineItem)
    (n : String) :
    n ∈ ((bogoBuild targets items).1).map Prod.fst ↔
      (n ∈ targets ∧ occursName items n = true) := by
  constructor
  · intro hmem
    by_contra hc
    have hnone : alookup (bogoBuild targets items).1 n = none := by
      rw [bogoBuild_fst_lookup]; exact if_neg hc
    exact (alookup_eq_none _ n).mp hnone hmem
  · intro hc
    have hsome : alookup (bogoBuild targets items).1 n
        = some (aggQty items n) := by
      rw [bogoBuild_fst_lookup]; exact if_pos hc
    by_contra hmem
    rw [(alookup_eq_none _ n).mpr hmem] at hsome
    cases hsome

/-- The per-name summand of `bogoSpecSum`. -/
def bogoSpecTerm (items : List LineItem) (pct : ℚ) (n : String) : ℚ :=
  if 2 ≤ aggQty items n then
    ((aggQty items n / 2 : ℤ) : ℚ) * ((lastPrice items n).getD 0) * (pct / 100)
  else 0

lemma bogoCalcStep_sum (prices : List (String × ℚ)) (pct : ℚ)
    (entries : List (String × ℤ)) :
    ∀ (s : ℚ) (ds : List BogoDetail),
      (entries.foldl (bogoCalcStep prices pct) (s, ds)).1 =
        s + (entries.map (fun e =>
          if 2 ≤ e.2 then
            ((e.2 / 2 : ℤ) : ℚ) * (alookupD prices e.1 0) * (pct / 100)
          else 0)).sum := by
  induction entries with
  | nil => intro s ds; simp
  | cons e rest ih =>
      intro s ds
      by_cases h : 2 ≤ e.2
      · simp [bogoCalcStep, h, ih, add_assoc]
      · simp [bogoCalcStep, h, ih]

lemma bogo_discount_eq (targets : List String) (pct : ℚ)
    (items : List LineItem) :
    (bogoCalc targets pct items).discount_amount =
      pyRound2 (bogoSpecSum targets pct items) := by
  have hnodup := bogoBuild_keys_nodup targets items
  have hpoint : ∀ e ∈ (bogoBuild targets items).1,
      (if 2 ≤ e.2 then
        ((e.2 / 2 : ℤ) : ℚ) *
          (alookupD (bogoBuild targets items).2 e.1 0) * (pct / 100)
      else 0) = bogoSpecTerm items pct e.1 := by
    intro e he
    have hsome := alookup_of_mem _ hnodup e he
    rw [bogoBuild_fst_lookup] at hsome
    by_cases hc : e.1 ∈ targets ∧ occursName items e.1 = true
    · rw [if_pos hc] at hsome
      have he2 : e.2 = aggQty items e.1 := by
        injection hsome with h'; exact h'.symm
      have hprice : alookupD (bogoBuild targets items).2 e.1 0
          = (lastPrice items e.1).getD 0 := by
        rw [alookupD, bogoBuild_snd_lookup, if_pos hc.1]
      rw [he2, hprice, bogoSpecTerm]
    · rw [if_neg hc] at hsome; cases hsome
  have hmaps : ((bogoBuild targets items).1.map (fun e =>
      if 2 ≤ e.2 then
        ((e.2 / 2 : ℤ) : ℚ) *
          (alookupD (bogoBuild targets items).2 e.1 0) * (pct / 100)
      else 0)) =
      (((bogoBuild targets items).1).map Prod.fst).map
        (bogoSpecTerm items pct) := by
    rw [List.map_map]
    exact List.map_congr_left hpoint
  have hsum : ((((bogoBuild targets items).1).map Prod.fst).map
      (bogoSpecTerm items pct)).sum = bogoSpecSum targets pct items := by
    rw [← List.sum_toFinset _ hnodup]
    rw [bogoSpecSum]
    apply Finset.sum_subset
    · intro n hn
      rw [List.mem_toFinset] at hn ⊢
      exact ((bogoBuild_keys_mem targets items n).mp hn).1
    · intro n hn hns
      rw [List.mem_toFinset] at hn hns
      have : ¬ (n ∈ targets ∧ occursName items n = true) := by
        intro hc
        exact hns ((bogoBuild_keys_mem targets items n).mpr hc)
      by_cases ho : occursName items n = true
      · exact absurd ⟨hn, ho⟩ this
      · have h0 : aggQty items n = 0 :=
          aggQty_of_not_occurs items n (by simpa using ho)
        simp [bogoSpecTerm, h0]
  show pyRound2 ((bogoBuild targets items).1.foldl
      (bogoCalcStep (bogoBuild targets items).2 pct) (0, [])).1 = _
  rw [bogoCalcStep_sum, hmaps, hsum, zero_add]

lemma bogo_applicable_iff (targets : List String) (items : List LineItem) :
    bogoIsApplicable targets items = true ↔
      ∃ n ∈ targets, 2 ≤ aggQty items n := by
  rw [bogoIsApplicable, List.any_eq_true]
  constructor
  · rintro ⟨e, he, h2⟩
    have h2' : 2 ≤ e.2 := by simpa using h2
    have hsome := alookup_of_mem _ (bogoBuild_keys_nodup targets items) e he
    rw [bogoBuild_fst_lookup] at hsome
    by_cases hc : e.1 ∈ targets ∧ occursName items e.1 = true
    · rw [if_pos hc] at hsome
      have he2 : e.2 = aggQty items e.1 := by
        injection hsome with h'; exact h'.symm
      exact ⟨e.1, hc.1, he2 ▸ h2'⟩
    · rw [if_neg hc] at hsome; cases hsome
  · rintro ⟨n, hn, h2⟩
    have ho : occursName items n = true := by
      by_contra hno
      have h0 : aggQty items n = 0 :=
        aggQty_of_not_occurs items n (by simpa using hno)
      rw [h0] at h2
      norm_num at h2
    have hsome : alookup (bogoBuild targets items).1 n
        = some (aggQty items n) := by
      rw [bogoBuild_fst_lookup]; exact if_pos ⟨hn, ho⟩
    exact ⟨(n, aggQty items n), mem_of_alookup _ _ _ hsome, by simpa using h2⟩

/-- C7, counterexample to the claim as stated: BOGO at 25% targeting `"F"`,
with a single line entry of two units at $2.49, yields
`floor(2/2) * 2.49 * 25/100 = $0.6225`, but the code returns the
cents-rounded `discount_amount = $0.62`. -/
theorem c7_counterexample :
    ((Strategy.bogo "B" ["F"] 25).calculate_discount clock0 10
      [⟨some "F", some 2, some (249/100)⟩] none).discount_amount = 62/100 ∧
    (62/100 : ℚ) ≠ ((2 / 2 : ℤ) : ℚ) * (249/100) * (25/100) := by
  constructor
  · simp [Strategy.calculate_discount, bogoCalc, bogoBuild, bogoStep,
      bogoCalcStep, upsert, alookup, alookupD, LineItem.pyName,
      LineItem.pyQty, LineItem.pyPrice]
    norm_num [pyRound2, roundHalfEven]
  · norm_num

/-- C7 (amended): a BOGO strategy is applicable iff some target name has an
aggregated quantity (across all line entries of that name) of at least 2; its
discount is the *round-half-even-to-cents* of the claimed sum: over each
target name, `floor(aggregated_quantity / 2)` times that name's (most
recently listed) unit price times `pct/100`. -/
theorem c7_bogo_characterization :
    (∀ (name : String) (targets : List String) (pct : ℚ) (clock : Clock)
        (total : ℚ) (items : List LineItem) (cust : Customer),
      (Strategy.bogo name targets pct).is_applicable clock total items cust
        = true ↔ ∃ n ∈ targets, 2 ≤ aggQty items n) ∧
    (∀ (name : String) (targets : List String) (pct : ℚ) (clock : Clock)
        (total : ℚ) (items : List LineItem) (cust : Customer),
      ((Strategy.bogo name targets pct).calculate_discount clock total items
        cust).discount_amount = pyRound2 (bogoSpecSum targets pct items)) := by
  constructor
  · intro name targets pct clock total items cust
    rw [Strategy.is_applicable]
    exact bogo_applicable_iff targets items
  · intro name targets pct clock total items cust
    rw [Strategy.calculate_discount]
    exact bogo_discount_eq targets pct items

/-! ## Claim C9 -/

/-- A Python dict subscript `d[k]`: unlike `.get`, it raises `KeyError` when
the key is absent.  The `Except`-instrumented variants below mark every
operation of the source that can raise on inputs with missing keys; the other
field reads of the source all go through `dict.get(key, default)` and are
total by construction. -/
def lookupE {A : Type} (l : List (String × A)) (k : String) :
    Except String A :=
  match alookup l k with
  | some v => Except.ok v
  | none => Except.error "KeyError"

/-- `Except`-instrumented `bogoCalcStep`: the source's `item_prices[item_name]`
subscript is the one genuinely fallible dict access in the strategy code. -/
def bogoCalcStepE (prices : List (String × ℚ)) (pct : ℚ)
    (acc : ℚ × List BogoDetail) (e : String × ℤ) :
    Except String (ℚ × List BogoDetail) :=
  if 2 ≤ e.2 then
    match lookupE prices e.1 with
    | .ok price =>
        let free : ℤ := e.2 / 2
        let d := (free : ℚ) * price * (pct / 100)
        .ok (acc.1 + d, acc.2 ++ [⟨e.1, e.2, free, d⟩])
    | .error msg => .error msg
  else .ok acc

/-- `Except`-instrumented `BuyOneGetOneStrategy.calculate_discount`. -/
def bogoCalcE (targets : List String) (pct : ℚ) (items : List LineItem) :
    Except String DiscountResult :=
  let cp := bogoBuild targets items
  match cp.1.foldlM (bogoCalcStepE cp.2 pct) ((0 : ℚ), ([] : List BogoDetail))
    with
  | .ok res =>
      .ok { discount_amount := pyRound2 res.1
            discount_type := "bogo"
            applicable := decide (0 < res.1)
            reason := "BOGO " ++ toString pct ++ "% applied"
            details := .bogo targets pct res.2 }
  | .error msg => .error msg

/-- `Except`-instrumented dispatch of `calculate_discount`: the non-BOGO
strategies read their inputs exclusively through `.get` defaults, so they
have no fallible operation to instrument. -/
def Strategy.calculate_discountE (s : Strategy) (clock : Clock) (total : ℚ)
    (items : List LineItem) (cust : Customer) : Except String DiscountResult :=
  match s with
  | .bogo _ targets pct => bogoCalcE targets pct items
  | _ => .ok (s.calculate_discount clock total items cust)

/-- `Except`-instrumented `DiscountStrategy.apply_discount`. -/
def apply_discountE (clock : Clock) (total : ℚ) (items : List LineItem)
    (cust : Customer) (o : StratObj) :
    Except String (DiscountResult × StratObj) :=
  if !is_valid_time clock.now o then .ok (expiredResult, o)
  else if !o.strat.is_applicable clock total items cust then
    .ok (notApplicableResult, o)
  else
    match o.strat.calculate_discountE clock total items cust with
    | .ok r =>
        if r.applicable then
          .ok (r, { o with
                    usage_count := o.usage_count + 1
                    total_savings := o.total_savings + r.discount_amount })
        else .ok (r, o)
    | .error m => .error m

/-- `Except`-instrumented strategy loop of `calculate_best_discount`. -/
def bestLoopE (clock : Clock) (total : ℚ) (items : List LineItem)
    (cust : Customer) :
    List StratObj → NamedResult → List NamedResult →
      Except String (List StratObj × NamedResult × List NamedResult)
  | [], best, avail => .ok ([], best, avail)
  | o :: rest, best, avail =>
      match apply_discountE clock total items cust o with
      | .error m => .error m
      | .ok ro =>
          if ro.1.applicable then
            let nr : NamedResult :=
              { toDiscountResult := ro.1, strategy_name := o.strat.name }
            let best' := if best.discount_amount < nr.discount_amount then nr
                         else best
            match bestLoopE clock total items cust rest best' (avail ++ [nr])
              with
            | .ok step => .ok (ro.2 :: step.1, step.2)
            | .error m => .error m
          else
            match bestLoopE clock total items cust rest best avail with
            | .ok step => .ok (ro.2 :: step.1, step.2)
            | .error m => .error m

/-- `Except`-instrumented `DiscountManager.calculate_best_discount`. -/
def calculate_best_discountE (mgr : Manager) (clock : Clock) (total : ℚ)
    (items : List LineItem) (cust : Customer) :
    Except String (BestResult × Manager) :=
  match bestLoopE clock total items cust mgr.strategies initBest [] with
  | .error m => .error m
  | .ok step =>
      .ok ({ toNamedResult := step.2.1, all_available := some step.2.2 },
        if step.2.1.applicable then
          { mgr with
            strategies := step.1
            applied_discounts_today := mgr.applied_discounts_today + 1
            total_savings_today :=
              mgr.total_savings_today + step.2.1.discount_amount }
        else { mgr with strategies := step.1 })

lemma bogoFold_keys_eq (targets : List String) (items : List LineItem) :
    ∀ (acc : List (String × ℤ) × List (String × ℚ)),
      acc.1.map Prod.fst = acc.2.map Prod.fst →
      ((items.foldl (bogoStep targets) acc).1).map Prod.fst =
        ((items.foldl (bogoStep targets) acc).2).map Prod.fst := by
  induction items with
  | nil => intro acc h; exact h
  | cons it rest ih =>
      intro acc h
      rw [List.foldl_cons]
      apply ih
      by_cases hmem : it.pyName ∈ targets
      · simp only [bogoStep, if_pos hmem]
        rw [upsert_keys, upsert_keys, h]
      · simpa [bogoStep, hmem] using h

lemma bogoBuild_keys_eq (targets : List String) (items : List LineItem) :
    ((bogoBuild targets items).1).map Prod.fst =
      ((bogoBuild targets items).2).map Prod.fst :=
  bogoFold_keys_eq targets items ([], []) rfl

lemma bogoCalcStepE_ok (prices : List (String × ℚ)) (pct : ℚ)
    (acc : ℚ × List BogoDetail) (e : String × ℤ)
    (h : e.1 ∈ prices.map Prod.fst) :
    bogoCalcStepE prices pct acc e =
      .ok (bogoCalcStep prices pct acc e) := by
  by_cases h2 : 2 ≤ e.2
  · obtain ⟨v, hv⟩ : ∃ v, alookup prices e.1 = some v := by
      cases hl : alookup prices e.1 with
      | none => exact absurd ((alookup_eq_none _ _).mp hl) (not_not.mpr h)
      | some v => exact ⟨v, rfl⟩
    simp [bogoCalcStepE, bogoCalcStep, h2, lookupE, hv, alookupD]
  · simp [bogoCalcStepE, bogoCalcStep, h2]

lemma bogoFoldME (prices : List (String × ℚ)) (pct : ℚ)
    (entries : List (String × ℤ))
    (hkeys : ∀ e ∈ entries, e.1 ∈ prices.map Prod.fst) :
    ∀ (acc : ℚ × List BogoDetail),
      entries.foldlM (bogoCalcStepE prices pct) acc =
        .ok (entries.foldl (bogoCalcStep prices pct) acc) := by
  induction entries with
  | nil => intro acc; rfl
  | cons e rest ih =>
      intro acc
      rw [List.foldlM_cons,
        bogoCalcStepE_ok prices pct acc e
          (hkeys e (List.mem_cons_self e rest))]
      rw [List.foldl_cons]
      have ih' := ih (fun e' he' => hkeys e' (List.mem_cons_of_mem e he'))
        (bogoCalcStep prices pct acc e)
      simpa using ih'

lemma bogoCalcE_ok (targets : List String) (pct : ℚ)
    (items : List LineItem) :
    bogoCalcE targets pct items = .ok (bogoCalc targets pct items) := by
  have hkeys : ∀ e ∈ (bogoBuild targets items).1,
      e.1 ∈ ((bogoBuild targets items).2).map Prod.fst := by
    intro e he
    rw [← bogoBuild_keys_eq]
    exact List.mem_map.mpr ⟨e, he, rfl⟩
  rw [bogoCalcE, bogoCalc]
  rw [bogoFoldME _ _ _ hkeys]

lemma calculate_discountE_ok (s : Strategy) (clock : Clock) (total : ℚ)
    (items : List LineItem) (cust : Customer) :
    s.calculate_discountE clock total items cust =
      .ok (s.calculate_discount clock total items cust) := by
  cases s with
  | bogo name targets pct =>
      rw [Strategy.calculate_discountE, Strategy.calculate_discount]
      exact bogoCalcE_ok targets pct items
  | percentage name pct minOrder maxD => rfl
  | fixedAmount name amount minOrder => rfl
  | timeBased name pct st en wk => rfl
  | loyaltyTier name tiers => rfl
  | combo name ci cp => rfl

lemma apply_discountE_ok (clock : Clock) (total : ℚ) (items : List LineItem)
    (cust : Customer) (o : StratObj) :
    apply_discountE clock total items cust o =
      .ok (apply_discount clock total items cust o) := by
  by_cases h1 : is_valid_time clock.now o
  · by_cases h2 : o.strat.is_applicable clock total items cust
    · rw [apply_discountE, apply_discount]
      simp only [h1, h2, Bool.not_true, if_false, calculate_discountE_ok]
      by_cases h3 :
          (o.strat.calculate_discount clock total items cust).applicable
      · simp [h3]
      · simp [h3]
    · simp [apply_discountE, apply_discount, h1, h2]
  · simp [apply_discountE, apply_discount, h1]

lemma bestLoopE_ok (clock : Clock) (total : ℚ) (items : List LineItem)
    (cust : Customer) (l : List StratObj) :
    ∀ (best : NamedResult) (avail : List NamedResult),
      bestLoopE clock total items cust l best avail =
        .ok (bestLoop clock total items cust l best avail) := by
  induction l with
  | nil => intro best avail; rfl
  | cons o rest ih =>
      intro best avail
      rw [bestLoopE, bestLoop, apply_discountE_ok]
      by_cases h : (apply_discount clock total items cust o).1.applicable
      · simp [h, ih]
      · simp [h, ih]

/-- C9: on arbitrary inputs — in particular line items or customer data with
any combination of missing keys (`none` fields) — the `Except`-instrumented
embeddings of `apply_discount` and `calculate_best_discount`, in which every
fallible dict subscript of the source is modelled as a possible `KeyError`,
always return `ok` of the total (pure) embedding: no strategy evaluation and
no resolution ever raises; missing fields only flow into `.get` defaults and
at worst make a rule non-applicable. -/
theorem c9_never_raises (mgr : Manager) (clock : Clock) (total : ℚ)
    (items : List LineItem) (cust : Customer) (o : StratObj) :
    apply_discountE clock total items cust o =
      .ok (apply_discount clock total items cust o) ∧
    calculate_best_discountE mgr clock total items cust =
      .ok (calculate_best_discount mgr clock total items cust) := by
  constructor
  · exact apply_discountE_ok clock total items cust o
  · rw [calculate_best_discountE, calculate_best_discount, bestLoopE_ok]

/-! ## Claim C10 -/

/-- C10: `calculate_multiple_discounts` with `allow_stacking = false` is
*definitionally* a delegation to `calculate_best_discount` on the same
arguments: the returned outcome and the updated manager state (strategy
counters and daily totals) coincide exactly. -/
theorem c10_no_stacking_delegates (mgr : Manager) (clock : Clock) (total : ℚ)
    (items : List LineItem) (cust : Customer) :
    calculate_multiple_discounts mgr clock total items cust false =
      calculate_best_discount mgr clock total items cust := by
  simp [calculate_multiple_discounts]
